import Mathlib

/-!
Shallow embedding of `roots.cpp` (halium_bootable_recovery): volume table,
path resolver with filesystem-type detection, idempotent mount/unmount
management, format engine and install-mount orchestration.

Strings are modelled as lists of characters (`Str`).  The OS environment
(blkid probe, mount snapshot scan, syscall outcomes, device sizes, child
process exit codes) is an explicit record of pure functions (`Env`), and the
currently mounted mount points are threaded as an explicit list.  Each
operation returns its integer status, the list of externally visible side
effects it performed (in order), and the updated mount snapshot.
-/

namespace Roots

abbrev Str := List Char

/-- A volume record of the fstab table (`struct fstab_rec` as used by
`roots.cpp`): mount point, backing device, filesystem type, options, the
signed `length` field, optional encryption-key location and label, geometry
hints, and the vold-managed flag queried via `fs_mgr_is_voldmanaged`. -/
structure Volume where
  mount_point : Str
  blk_device : Str
  fs_type : Str
  fs_options : Str
  length : Int
  key_loc : Option Str
  label : Option Str
  logical_blk_size : Nat
  erase_blk_size : Nat
  voldmanaged : Bool
deriving DecidableEq

/-- Externally visible side effects of the layer, in program order. -/
inductive Effect where
  | mkdirs (mp : Str)
  | mountCall (dev mp : Str)
  | umountCall (mp : Str)
  | umountDetachCall (mp : Str)
  | wipeCall (loc : Str)
  | execCall (argv : List Str)
deriving DecidableEq

/-- Result of an `fstat` on an opened path: a regular file with its
`st_size`, a block device with its `uint64` size, another file kind, or a
failing `fstat`. -/
inductive FileKind where
  | reg (size : Int)
  | blk (size : Nat)
  | other
  | statFail
deriving DecidableEq

/-- The OS environment consumed by `roots.cpp`, as pure functions: the blkid
TYPE probe, whether `scan_mounted_volumes` succeeds, the outcomes of the
mount/unmount syscalls (which may depend on the current snapshot), the
outcomes of `open` on key locations and block devices, `fstat`/device-size
information, and exit statuses of spawned external tools. -/
structure Env where
  blkid : Str → Option Str
  scanOk : Bool
  mountOk : List Str → Str → Str → Bool
  umountOk : List Str → Str → Bool
  umountDetachOk : List Str → Str → Bool
  openKeyOk : Str → Bool
  openBlkOk : Str → Bool
  fileInfo : Str → FileKind
  execStatus : List Str → Nat

/-- Outcome of one operation: its `int` return value, the ordered effect
trace, and the mount snapshot after the operation. -/
structure OpResult where
  ret : Int
  trace : List Effect
  mounted : List Str
deriving DecidableEq

/-- First element of the list satisfying the predicate, together with the
elements after it (models a `fstab_rec` pointer plus
`fs_mgr_get_entry_for_mount_point_after`). -/
def findWithRest : List Volume → (Volume → Bool) → Option (Volume × List Volume)
  | [], _ => none
  | v :: rest, p => if p v then some (v, rest) else findWithRest rest p

/-- `fs_mgr_get_entry_for_mount_point`: first table entry whose mount point
equals the path. -/
def fs_mgr_get_entry_for_mount_point (tab : List Volume) (path : Str) : Option Volume :=
  (findWithRest tab (fun w => w.mount_point == path)).map (fun pr => pr.1)

/-- `get_entry_for_mount_point_detect_fs`: exact mount-point lookup; for a
configured type in {ext4, f2fs, vfat} probe the backing device's on-disk
signature and, when it differs, advance to the first subsequent entry with
the same mount point whose configured type matches the detected one, falling
back to the originally fetched entry. -/
def get_entry_for_mount_point_detect_fs (env : Env) (tab : List Volume) (path : Str) :
    Option Volume :=
  match findWithRest tab (fun w => w.mount_point == path) with
  | none => none
  | some (r0, rest) =>
    if r0.fs_type = "ext4".toList ∨ r0.fs_type = "f2fs".toList ∨ r0.fs_type = "vfat".toList then
      match env.blkid r0.blk_device with
      | none => some r0
      | some detected =>
        if r0.fs_type = detected then some r0
        else
          match rest.find? (fun w => w.mount_point == path && w.fs_type == detected) with
          | none => some r0
          | some w => some w
    else some r0

/-- Index of the last `'/'` in the list, as in `std::string::find_last_of`. -/
def findLastSlash : Str → Option Nat
  | [] => none
  | c :: rest =>
    match findLastSlash rest with
    | some i => some (i + 1)
    | none => if c = '/' then some 0 else none

/-- The trimming loop of `volume_for_path`, with explicit fuel (the loop
strictly shrinks the string, so `length + 1` fuel is always enough). -/
def volume_for_path_go (env : Env) (tab : List Volume) : Nat → Str → Option Volume
  | 0, _ => none
  | fuel + 1, s =>
    match get_entry_for_mount_point_detect_fs env tab s with
    | some r => some r
    | none =>
      if s = "/".toList then none
      else
        match findLastSlash s with
        | none => none
        | some k =>
          if k = 0 then volume_for_path_go env tab fuel ( "/".toList)
          else volume_for_path_go env tab fuel (s.take k)

/-- `volume_for_path`: null/empty path gives no volume; otherwise try the
path and successively each ancestor obtained by trimming at the last `'/'`,
down to `"/"`, returning the first detected match. -/
def volume_for_path (env : Env) (tab : List Volume) (path : Str) : Option Volume :=
  if path = [] then none else volume_for_path_go env tab (path.length + 1) path

/-- `volume_for_label`: first entry whose (optional) label equals the
argument. -/
def volume_for_label (tab : List Volume) (label : Str) : Option Volume :=
  tab.find? (fun v => match v.label with
    | some l => l == label
    | none => false)

/-- `ensure_path_mounted_at`: resolve the path, treat ramdisk as always
mounted, rescan the snapshot, short-circuit when a non-vold-managed volume's
target mount point is already mounted, then create the directory and issue
the OS mount call for the supported filesystem types. -/
def ensure_path_mounted_at (env : Env) (tab : List Volume) (s : List Str)
    (path : Str) (mount_point : Option Str) : OpResult :=
  match volume_for_path env tab path with
  | none => ⟨-1, [], s⟩
  | some v =>
    if v.fs_type = "ramdisk".toList then ⟨0, [], s⟩
    else if env.scanOk = false then ⟨-1, [], s⟩
    else
      let mp := mount_point.getD v.mount_point
      if v.voldmanaged = false ∧ mp ∈ s then ⟨0, [], s⟩
      else
        if v.fs_type = "ext4".toList ∨ v.fs_type = "squashfs".toList ∨
            v.fs_type = "vfat".toList ∨ v.fs_type = "f2fs".toList then
          if env.mountOk s v.blk_device mp then
            ⟨0, [Effect.mkdirs mp, Effect.mountCall v.blk_device mp], mp :: s⟩
          else ⟨-1, [Effect.mkdirs mp, Effect.mountCall v.blk_device mp], s⟩
        else ⟨-1, [Effect.mkdirs mp], s⟩

/-- `ensure_volume_mounted`. -/
def ensure_volume_mounted (env : Env) (tab : List Volume) (s : List Str)
    (v? : Option Volume) : OpResult :=
  match v? with
  | none => ⟨-1, [], s⟩
  | some v => ensure_path_mounted_at env tab s v.mount_point none

/-- `ensure_path_mounted`: mount at the default mount point. -/
def ensure_path_mounted (env : Env) (tab : List Volume) (s : List Str) (path : Str) :
    OpResult :=
  ensure_path_mounted_at env tab s path none

/-- `ensure_volume_unmounted`: fail on unknown or ramdisk volume, rescan,
succeed as a no-op when the mount point is not mounted, otherwise issue the
normal or detach unmount. -/
def ensure_volume_unmounted (env : Env) (s : List Str) (v? : Option Volume)
    (detach : Bool) : OpResult :=
  match v? with
  | none => ⟨-1, [], s⟩
  | some v =>
    if v.fs_type = "ramdisk".toList then ⟨-1, [], s⟩
    else if env.scanOk = false then ⟨-1, [], s⟩
    else if v.mount_point ∈ s then
      if detach then
        if env.umountDetachOk s v.mount_point then
          ⟨0, [Effect.umountDetachCall v.mount_point], s.filter (fun m => m ≠ v.mount_point)⟩
        else ⟨-1, [Effect.umountDetachCall v.mount_point], s⟩
      else
        if env.umountOk s v.mount_point then
          ⟨0, [Effect.umountCall v.mount_point], s.filter (fun m => m ≠ v.mount_point)⟩
        else ⟨-1, [Effect.umountCall v.mount_point], s⟩
    else ⟨0, [], s⟩

/-- `ensure_path_unmounted`: paths under the `"/storage/"` namespace resolve
by the label segment right after the prefix; every other path resolves via
`volume_for_path`. -/
def ensure_path_unmounted (env : Env) (tab : List Volume) (s : List Str)
    (path : Str) (detach : Bool) : OpResult :=
  let v? :=
    if path.take 9 = "/storage/".toList then
      volume_for_label tab ((path.drop 9).takeWhile (fun c => !(c == '/')))
    else volume_for_path env tab path
  ensure_volume_unmounted env s v? detach

/-- Two's-complement truncation of an integer to a signed 64-bit value (the
`int64_t` result of mixed `int64_t`/`uint64_t` arithmetic). -/
def toInt64 (x : Int) : Int :=
  (x + 9223372036854775808) % 18446744073709551616 - 9223372036854775808

/-- `CRYPT_FOOTER_OFFSET` (0x4000) from `cryptfs.h`. -/
def CRYPT_FOOTER_OFFSET : Nat := 16384

/-- `get_file_size(fd, reserve_len)`: 0 when `fstat` fails; for a regular
file `st_size - reserve_len`; for a block device the device size minus the
reservation, or 0 when the size is below the reservation or above
`int64` max; 0 for any other file kind. -/
def get_file_size (fk : FileKind) (reserve_len : Nat) : Int :=
  match fk with
  | FileKind.statFail => 0
  | FileKind.reg size => toInt64 (size - (reserve_len : Int))
  | FileKind.blk size =>
    if size < reserve_len ∨ 9223372036854775807 < size then 0
    else (size : Int) - (reserve_len : Int)
  | FileKind.other => 0

/-- The key-location wipe step of `format_volume`: when `key_loc` is a path
(starts with `'/'`), open it (fail on open error, modelled as `none`) and
wipe it; otherwise do nothing. -/
def format_keywipe (env : Env) (v : Volume) : Option (List Effect) :=
  match v.key_loc with
  | some k =>
    if k.take 1 = "/".toList then
      if env.openKeyOk k then some [Effect.wipeCall k] else none
    else some []
  | none => some []

/-- The length computation of `format_volume`: a positive configured length
is used as is; a negative length, or a zero length with `key_loc ==
"footer"`, opens the raw block device (fail on open error) and uses the file
size minus `-length` (or minus `CRYPT_FOOTER_OFFSET` when the length is 0),
failing when the computed size is not positive; otherwise the length is left
unconstrained at 0. -/
def format_volume_length (env : Env) (v : Volume) : Option Int :=
  if 0 < v.length then some v.length
  else if v.length < 0 ∨ v.key_loc = some ( "footer".toList) then
    if env.openBlkOk v.blk_device then
      let len := get_file_size (env.fileInfo v.blk_device)
        (if v.length = 0 then CRYPT_FOOTER_OFFSET else (-v.length).toNat)
      if len ≤ 0 then none else some len
    else none
  else some 0

/-- The ext4 dispatch tail of `format_volume`: build the `mke2fs` argument
vector (fixed 4096-byte blocks, optional stride/stripe-width, optional block
count), run it, then on success and with a source directory run
`e2fsdroid`. -/
def format_ext4 (env : Env) (v : Volume) (volume : Str) (directory : Option Str)
    (length : Int) (tr : List Effect) (s1 : List Str) : OpResult :=
  let kBlockSize : Nat := 4096
  let raid_stride :=
    if v.logical_blk_size ≠ 0 ∧ v.logical_blk_size < 8192 then 8192 / kBlockSize
    else v.logical_blk_size / kBlockSize
  let raid_stripe_width := v.erase_blk_size / kBlockSize
  let base := [ "/sbin/mke2fs_static".toList, "-F".toList, "-t".toList, "ext4".toList,
    "-b".toList, (toString kBlockSize).toList ]
  let args1 :=
    if v.erase_blk_size ≠ 0 ∧ v.logical_blk_size ≠ 0 then
      base ++ [ "-E".toList,
        ("stride=" ++ toString raid_stride ++ ",stripe-width=" ++
          toString raid_stripe_width).toList ]
    else base
  let args2 := args1 ++ [v.blk_device] ++
    (if length ≠ 0 then [ (toString (length / (kBlockSize : Int))).toList ] else [])
  if env.execStatus args2 = 0 then
    match directory with
    | some dir =>
      let dargs := [ "/sbin/e2fsdroid_static".toList, "-e".toList, "-f".toList, dir,
        "-a".toList, volume, v.blk_device ]
      if env.execStatus dargs = 0 then
        ⟨0, tr ++ [Effect.execCall args2, Effect.execCall dargs], s1⟩
      else ⟨-1, tr ++ [Effect.execCall args2, Effect.execCall dargs], s1⟩
    | none => ⟨0, tr ++ [Effect.execCall args2], s1⟩
  else ⟨-1, tr ++ [Effect.execCall args2], s1⟩

/-- The f2fs dispatch tail of `format_volume`: build the `mkfs.f2fs`
argument vector (encrypt/quota/verity features, 4096-byte sectors, optional
sector count when the length is at least one sector), run it, then on
success and with a source directory run `sload.f2fs`. -/
def format_f2fs (env : Env) (v : Volume) (volume : Str) (directory : Option Str)
    (length : Int) (tr : List Effect) (s1 : List Str) : OpResult :=
  let kSectorSize : Nat := 4096
  let args := [ "/sbin/mkfs.f2fs".toList, "-d1".toList, "-f".toList,
    "-O".toList, "encrypt".toList, "-O".toList, "quota".toList,
    "-O".toList, "verity".toList, "-w".toList, (toString kSectorSize).toList,
    v.blk_device ] ++
    (if (kSectorSize : Int) ≤ length then [ (toString (length / (kSectorSize : Int))).toList ]
     else [])
  if env.execStatus args = 0 then
    match directory with
    | some dir =>
      let dargs := [ "/sbin/sload.f2fs".toList, "-f".toList, dir, "-t".toList,
        volume, v.blk_device ]
      if env.execStatus dargs = 0 then
        ⟨0, tr ++ [Effect.execCall args, Effect.execCall dargs], s1⟩
      else ⟨-1, tr ++ [Effect.execCall args, Effect.execCall dargs], s1⟩
    | none => ⟨0, tr ++ [Effect.execCall args], s1⟩
  else ⟨-1, tr ++ [Effect.execCall args], s1⟩

/-- `format_volume(volume, directory)`: resolve, reject ramdisk, reject a
path different from the exact mount point, unmount (effectful), reject
filesystem types other than ext4/f2fs, wipe a path-like key location,
compute the length, reject vold-managed volumes, then dispatch to the
external formatter (and loader). -/
def format_volume (env : Env) (tab : List Volume) (s : List Str)
    (volume : Str) (directory : Option Str) : OpResult :=
  match volume_for_path env tab volume with
  | none => ⟨-1, [], s⟩
  | some v =>
    if v.fs_type = "ramdisk".toList then ⟨-1, [], s⟩
    else if ¬(v.mount_point = volume) then ⟨-1, [], s⟩
    else
      let um := ensure_path_unmounted env tab s volume false
      if ¬(um.ret = 0) then ⟨-1, um.trace, um.mounted⟩
      else if ¬(v.fs_type = "ext4".toList ∨ v.fs_type = "f2fs".toList) then
        ⟨-1, um.trace, um.mounted⟩
      else
        match format_keywipe env v with
        | none => ⟨-1, um.trace, um.mounted⟩
        | some wtr =>
          match format_volume_length env v with
          | none => ⟨-1, um.trace ++ wtr, um.mounted⟩
          | some length =>
            if v.voldmanaged then ⟨-1, um.trace ++ wtr, um.mounted⟩
            else if v.fs_type = "ext4".toList then
              format_ext4 env v volume directory length (um.trace ++ wtr) um.mounted
            else
              format_f2fs env v volume directory length (um.trace ++ wtr) um.mounted

/-- The loop body of `setup_install_mounts` over the remaining entries:
skip `"/"`, ensure `"/tmp"` and `"/cache"` mounted, ensure every other
mount point unmounted (detach only for `"/data"`), stopping at the first
failure. -/
def setup_install_mounts_go (env : Env) (tab : List Volume) :
    List Volume → List Str → OpResult
  | [], s => ⟨0, [], s⟩
  | v :: rest, s =>
    if v.mount_point = "/".toList then setup_install_mounts_go env tab rest s
    else if v.mount_point = "/tmp".toList ∨ v.mount_point = "/cache".toList then
      let r := ensure_path_mounted env tab s v.mount_point
      if r.ret = 0 then
        let r2 := setup_install_mounts_go env tab rest r.mounted
        ⟨r2.ret, r.trace ++ r2.trace, r2.mounted⟩
      else ⟨-1, r.trace, r.mounted⟩
    else
      let detach := v.mount_point == "/data".toList
      let r := ensure_volume_unmounted env s (some v) detach
      if r.ret = 0 then
        let r2 := setup_install_mounts_go env tab rest r.mounted
        ⟨r2.ret, r.trace ++ r2.trace, r2.mounted⟩
      else ⟨-1, r.trace, r.mounted⟩

/-- `setup_install_mounts`: fails immediately when no volume table is
loaded, otherwise processes every configured volume in order. -/
def setup_install_mounts (env : Env) (tab? : Option (List Volume)) (s : List Str) :
    OpResult :=
  match tab? with
  | none => ⟨-1, [], s⟩
  | some tab => setup_install_mounts_go env tab tab s

/-! ## Helper lemmas -/

theorem findWithRest_pred {l : List Volume} {p : Volume → Bool} {a : Volume}
    {rest : List Volume} (h : findWithRest l p = some (a, rest)) : p a = true := by
  induction l with
  | nil => simp [findWithRest] at h
  | cons v t ih =>
    by_cases hp : p v
    · simp [findWithRest, hp] at h
      rcases h with ⟨h1, _⟩
      rw [← h1]; exact hp
    · simp [findWithRest, hp] at h
      exact ih h

theorem findWithRest_isSome_of_mem (p : Volume → Bool) {l : List Volume} {v : Volume}
    (hv : v ∈ l) (hp : p v = true) : ∃ pr, findWithRest l p = some pr := by
  induction l with
  | nil => simp at hv
  | cons a t ih =>
    by_cases ha : p a
    · exact ⟨(a, t), by simp [findWithRest, ha]⟩
    · rcases List.mem_cons.mp hv with h1 | h1
      · rw [h1] at hp; exact absurd hp (by simp [ha])
      · rcases ih h1 with ⟨pr, hpr⟩
        exact ⟨pr, by simp [findWithRest, ha, hpr]⟩

theorem detect_mount_point {env : Env} {tab : List Volume} {path : Str} {r : Volume}
    (h : get_entry_for_mount_point_detect_fs env tab path = some r) :
    r.mount_point = path := by
  simp only [get_entry_for_mount_point_detect_fs] at h
  cases hf : findWithRest tab (fun w => w.mount_point == path) with
  | none => rw [hf] at h; simp at h
  | some pr =>
    obtain ⟨r0, rest⟩ := pr
    have hr0 : r0.mount_point = path := by
      have := findWithRest_pred hf
      simpa using this
    rw [hf] at h
    simp only [] at h
    by_cases ht : r0.fs_type = "ext4".toList ∨ r0.fs_type = "f2fs".toList ∨
        r0.fs_type = "vfat".toList
    · rw [if_pos ht] at h
      cases hb : env.blkid r0.blk_device with
      | none => rw [hb] at h; simp only [] at h; simp at h; rw [← h]; exact hr0
      | some d =>
        rw [hb] at h
        simp only [] at h
        by_cases he : r0.fs_type = d
        · rw [if_pos he] at h; simp at h; rw [← h]; exact hr0
        · rw [if_neg he] at h
          cases hfind : rest.find? (fun w => w.mount_point == path && w.fs_type == d) with
          | none => rw [hfind] at h; simp only [] at h; simp at h; rw [← h]; exact hr0
          | some w =>
            rw [hfind] at h; simp only [] at h; simp at h
            have := List.find?_some hfind
            simp at this
            rw [← h]; exact this.1
    · rw [if_neg ht] at h; simp at h; rw [← h]; exact hr0

theorem detect_isSome_of_mem (env : Env) {tab : List Volume} {v : Volume}
    (hv : v ∈ tab) :
    ∃ r, get_entry_for_mount_point_detect_fs env tab v.mount_point = some r := by
  obtain ⟨⟨r0, rest⟩, hf⟩ :=
    findWithRest_isSome_of_mem (fun w => w.mount_point == v.mount_point) hv (by simp)
  simp only [get_entry_for_mount_point_detect_fs, hf]
  by_cases ht : r0.fs_type = "ext4".toList ∨ r0.fs_type = "f2fs".toList ∨
      r0.fs_type = "vfat".toList
  · rw [if_pos ht]
    cases hb : env.blkid r0.blk_device with
    | none => exact ⟨r0, rfl⟩
    | some d =>
      simp only []
      by_cases he : r0.fs_type = d
      · rw [if_pos he]
        exact ⟨r0, rfl⟩
      · rw [if_neg he]
        cases hfind : rest.find? (fun w => w.mount_point == v.mount_point && w.fs_type == d) with
        | none => exact ⟨r0, rfl⟩
        | some w => exact ⟨w, rfl⟩
  · rw [if_neg ht]; exact ⟨r0, rfl⟩

/-- A path that is itself a configured mount point resolves to an entry with
exactly that mount point. -/
theorem volume_for_path_self (env : Env) {tab : List Volume} {v : Volume}
    (hv : v ∈ tab) (hne : ¬(v.mount_point = [])) :
    ∃ r, volume_for_path env tab v.mount_point = some r ∧ r.mount_point = v.mount_point := by
  obtain ⟨r, hr⟩ := detect_isSome_of_mem env hv
  refine ⟨r, ?_, detect_mount_point hr⟩
  simp [volume_for_path, hne, volume_for_path_go, hr]

theorem keywipe_shape {env : Env} {v : Volume} {wtr : List Effect}
    (h : format_keywipe env v = some wtr) :
    wtr = [] ∨ ∃ k, wtr = [Effect.wipeCall k] := by
  simp only [format_keywipe] at h
  cases hk : v.key_loc with
  | none => rw [hk] at h; simp only [] at h; simp at h; left; rw [← h]
  | some k =>
    rw [hk] at h
    simp only [] at h
    by_cases hs : k.take 1 = "/".toList
    · rw [if_pos hs] at h
      cases ho : env.openKeyOk k with
      | false => rw [ho] at h; simp at h
      | true => rw [ho] at h; simp at h; right; exact ⟨k, h.symm⟩
    · rw [if_neg hs] at h; simp at h; left; rw [← h]

theorem evu_exec_notin (env : Env) (s : List Str) (v? : Option Volume) (detach : Bool)
    (args : List Str) :
    ¬(Effect.execCall args ∈ (ensure_volume_unmounted env s v? detach).trace) := by
  cases v? with
  | none => simp [ensure_volume_unmounted]
  | some v =>
    simp only [ensure_volume_unmounted]
    split_ifs <;> simp

theorem epu_exec_notin (env : Env) (tab : List Volume) (s : List Str) (path : Str)
    (detach : Bool) (args : List Str) :
    ¬(Effect.execCall args ∈ (ensure_path_unmounted env tab s path detach).trace) := by
  simp only [ensure_path_unmounted]
  exact evu_exec_notin env s _ detach args

/-- In every rejecting path of `format_volume` — in particular when the
length computation fails or when the volume is vold-managed — the result is
-1 and no external tool has been dispatched. -/
theorem format_reject_no_exec {env : Env} {tab : List Volume} {s : List Str}
    {volume : Str} {directory : Option Str} {v : Volume}
    (hv : volume_for_path env tab volume = some v)
    (hrej : format_volume_length env v = none ∨ v.voldmanaged = true) :
    (format_volume env tab s volume directory).ret = -1 ∧
    ∀ args, ¬(Effect.execCall args ∈ (format_volume env tab s volume directory).trace) := by
  simp only [format_volume, hv]
  by_cases h1 : v.fs_type = "ramdisk".toList
  · simp [h1]
  rw [if_neg h1]
  by_cases h2 : ¬(v.mount_point = volume)
  · simp [h2]
  rw [if_neg h2]
  by_cases h3 : ¬((ensure_path_unmounted env tab s volume false).ret = 0)
  · simp only [if_pos h3]
    exact ⟨by trivial, fun args => epu_exec_notin env tab s volume false args⟩
  rw [if_neg h3]
  by_cases h4 : ¬(v.fs_type = "ext4".toList ∨ v.fs_type = "f2fs".toList)
  · simp only [if_pos h4]
    exact ⟨by trivial, fun args => epu_exec_notin env tab s volume false args⟩
  rw [if_neg h4]
  cases hkw : format_keywipe env v with
  | none =>
    exact ⟨rfl, fun args => epu_exec_notin env tab s volume false args⟩
  | some wtr =>
    simp only []
    have hwtr : ∀ args, ¬(Effect.execCall args ∈ wtr) := by
      intro args hmem
      rcases keywipe_shape hkw with h | ⟨k, h⟩ <;> rw [h] at hmem <;> simp at hmem
    cases hlen : format_volume_length env v with
    | none =>
      refine ⟨rfl, fun args hmem => ?_⟩
      rcases List.mem_append.mp hmem with h | h
      · exact epu_exec_notin env tab s volume false args h
      · exact hwtr args h
    | some len =>
      simp only []
      rcases hrej with h | h
      · rw [h] at hlen; exact absurd hlen (by simp)
      · rw [if_pos h]
        refine ⟨by trivial, fun args hmem => ?_⟩
        rcases List.mem_append.mp hmem with hm | hm
        · exact epu_exec_notin env tab s volume false args hm
        · exact hwtr args hm

/-! ## Concrete volumes and environment used by witnesses -/

/-- Environment in which every OS interaction succeeds, the signature probe
finds nothing, and every backing device is a 2048-byte block device. -/
def envT : Env where
  blkid := fun _ => none
  scanOk := true
  mountOk := fun _ _ _ => true
  umountOk := fun _ _ => true
  umountDetachOk := fun _ _ => true
  openKeyOk := fun _ => true
  openBlkOk := fun _ => true
  fileInfo := fun _ => FileKind.blk 2048
  execStatus := fun _ => 0

/-- A root (`"/"`) entry configured as ext4. -/
def rootExt4 : Volume where
  mount_point := "/".toList
  blk_device := "/dev/block/by-name/root".toList
  fs_type := "ext4".toList
  fs_options := []
  length := 0
  key_loc := none
  label := none
  logical_blk_size := 0
  erase_blk_size := 0
  voldmanaged := false

/-- A root (`"/"`) entry of a non-formattable type. -/
def rootVfat : Volume where
  mount_point := "/".toList
  blk_device := "/dev/block/by-name/root".toList
  fs_type := "vfat".toList
  fs_options := []
  length := 0
  key_loc := none
  label := none
  logical_blk_size := 0
  erase_blk_size := 0
  voldmanaged := false

/-- The synthetic `/tmp` ramdisk entry added by `load_volume_table`. -/
def tmpRamdisk : Volume where
  mount_point := "/tmp".toList
  blk_device := "ramdisk".toList
  fs_type := "ramdisk".toList
  fs_options := []
  length := 0
  key_loc := none
  label := none
  logical_blk_size := 0
  erase_blk_size := 0
  voldmanaged := false

/-- A vold-managed vfat volume. -/
def voldVfat : Volume where
  mount_point := "/sdcard".toList
  blk_device := "/dev/block/mmcblk1p1".toList
  fs_type := "vfat".toList
  fs_options := []
  length := 0
  key_loc := none
  label := none
  logical_blk_size := 0
  erase_blk_size := 0
  voldmanaged := true

/-! ## Claims -/

/-- Claim C1, counterexample: with a volume table whose root (`"/"`) entry is
configured as ext4, `format_volume` on `"/"` succeeds (returns 0) and
dispatches the external formatter — the claim that format on the root volume
always fails, for every volume table, is false. -/
theorem claim_C1_cex :
    (format_volume envT [rootExt4] [] ( "/".toList) none).ret = 0 ∧
    ¬((format_volume envT [rootExt4] [] ( "/".toList) none).trace = []) := by
  constructor <;> decide

/-- Claim C1 (amended): a `format_volume` call whose path resolves to the
ramdisk volume always fails with no side effects and never dispatches an
external formatter; a call whose path resolves to the root volume fails
without dispatching a formatter provided the root entry's filesystem type is
not ext4 or f2fs (the code performs no explicit root check). -/
theorem claim_C1 :
    (∀ env tab s volume directory v, volume_for_path env tab volume = some v →
      v.fs_type = "ramdisk".toList →
      format_volume env tab s volume directory = ⟨-1, [], s⟩) ∧
    (∀ env tab s volume directory v, volume_for_path env tab volume = some v →
      v.mount_point = "/".toList →
      ¬(v.fs_type = "ext4".toList) → ¬(v.fs_type = "f2fs".toList) →
      (format_volume env tab s volume directory).ret = -1 ∧
      ∀ args, ¬(Effect.execCall args ∈ (format_volume env tab s volume directory).trace)) := by
  constructor
  · intro env tab s volume directory v hv hram
    simp [format_volume, hv, hram]
  · intro env tab s volume directory v hv _ hx hf
    simp only [format_volume, hv]
    by_cases h1 : v.fs_type = "ramdisk".toList
    · simp [h1]
    rw [if_neg h1]
    by_cases h2 : ¬(v.mount_point = volume)
    · simp [h2]
    rw [if_neg h2]
    by_cases h3 : ¬((ensure_path_unmounted env tab s volume false).ret = 0)
    · simp only [if_pos h3]
      exact ⟨by trivial, fun args => epu_exec_notin env tab s volume false args⟩
    rw [if_neg h3]
    have h4 : ¬(v.fs_type = "ext4".toList ∨ v.fs_type = "f2fs".toList) := by
      intro hc; rcases hc with hc | hc
      · exact hx hc
      · exact hf hc
    simp only [if_pos h4]
    exact ⟨by trivial, fun args => epu_exec_notin env tab s volume false args⟩

/-- Claim C1 witness: the amended theorem applied to the ramdisk `/tmp`
entry and to a vfat-typed root entry. -/
theorem claim_C1_w :
    format_volume envT [tmpRamdisk] [] ( "/tmp".toList) none = ⟨-1, [], []⟩ ∧
    (format_volume envT [rootVfat] [] ( "/".toList) none).ret = -1 :=
  ⟨claim_C1.1 envT [tmpRamdisk] [] ( "/tmp".toList) none tmpRamdisk (by decide) (by decide),
   (claim_C1.2 envT [rootVfat] [] ( "/".toList) none rootVfat (by decide) (by decide)
     (by decide) (by decide)).1⟩

/-- Claim C2, counterexample: for a vold-managed vfat volume that is already
mounted, `ensure_path_mounted_at` does issue the OS mount call — the
vold-managed check only disables the already-mounted shortcut, so the claim
that no mount call is ever issued for a vold-managed volume is false. -/
theorem claim_C2_cex :
    Effect.mountCall ( "/dev/block/mmcblk1p1".toList) ( "/sdcard".toList) ∈
      (ensure_path_mounted_at envT [voldVfat] [ "/sdcard".toList]
        ( "/sdcard".toList) none).trace := by
  decide

/-- Claim C2 (amended): `format_volume` rejects every vold-managed volume
before dispatching any external formatter; but `ensure_path_mounted_at`
still issues the OS mount call for a vold-managed volume of a supported
filesystem type (the vold check only skips the already-mounted no-op), and
`ensure_volume_unmounted` performs no vold-managed check and issues the OS
unmount call whenever the volume's mount point is in the scan. -/
theorem claim_C2 :
    (∀ env tab s volume directory v, volume_for_path env tab volume = some v →
      v.voldmanaged = true →
      (format_volume env tab s volume directory).ret = -1 ∧
      ∀ args, ¬(Effect.execCall args ∈ (format_volume env tab s volume directory).trace)) ∧
    (∀ env tab s path mpo v, volume_for_path env tab path = some v →
      v.voldmanaged = true → ¬(v.fs_type = "ramdisk".toList) → env.scanOk = true →
      (v.fs_type = "ext4".toList ∨ v.fs_type = "squashfs".toList ∨
        v.fs_type = "vfat".toList ∨ v.fs_type = "f2fs".toList) →
      Effect.mountCall v.blk_device (mpo.getD v.mount_point) ∈
        (ensure_path_mounted_at env tab s path mpo).trace) ∧
    (∀ env s v detach, v.voldmanaged = true → ¬(v.fs_type = "ramdisk".toList) →
      env.scanOk = true → v.mount_point ∈ s →
      (if detach then Effect.umountDetachCall v.mount_point
       else Effect.umountCall v.mount_point) ∈
        (ensure_volume_unmounted env s (some v) detach).trace) := by
  refine ⟨?_, ?_, ?_⟩
  · intro env tab s volume directory v hv hvold
    exact format_reject_no_exec hv (Or.inr hvold)
  · intro env tab s path mpo v hv hvold hram hscan hty
    simp only [ensure_path_mounted_at, hv]
    rw [if_neg hram]
    rw [hscan]
    simp only [if_neg (by simp : ¬(true = false))]
    have hc : ¬(v.voldmanaged = false ∧ mpo.getD v.mount_point ∈ s) := by
      intro hc; rw [hvold] at hc; simp at hc
    rw [if_neg hc, if_pos hty]
    by_cases hm : env.mountOk s v.blk_device (mpo.getD v.mount_point)
    · rw [if_pos hm]; simp
    · rw [if_neg hm]; simp
  · intro env s v detach hvold hram hscan hmem
    simp only [ensure_volume_unmounted]
    rw [if_neg hram]
    rw [hscan]
    simp only [if_neg (by simp : ¬(true = false))]
    rw [if_pos hmem]
    cases detach with
    | true =>
      simp only [if_pos rfl]
      by_cases hu : env.umountDetachOk s v.mount_point
      · rw [if_pos hu]; simp
      · rw [if_neg hu]; simp
    | false =>
      simp only [Bool.false_eq_true, if_neg (by simp : ¬False)]
      by_cases hu : env.umountOk s v.mount_point
      · rw [if_pos hu]; simp
      · rw [if_neg hu]; simp

/-- Claim C2 witness: the amended theorem applied to a mounted vold-managed
vfat volume: format rejects it, mount still issues the OS mount call, and
unmount still issues the OS unmount call. -/
theorem claim_C2_w :
    (format_volume envT [voldVfat] [] ( "/sdcard".toList) none).ret = -1 ∧
    Effect.mountCall ( "/dev/block/mmcblk1p1".toList) ( "/sdcard".toList) ∈
      (ensure_path_mounted_at envT [voldVfat] [] ( "/sdcard".toList) none).trace ∧
    Effect.umountCall ( "/sdcard".toList) ∈
      (ensure_volume_unmounted envT [ "/sdcard".toList] (some voldVfat) false).trace :=
  ⟨(claim_C2.1 envT [voldVfat] [] ( "/sdcard".toList) none voldVfat (by decide) (by decide)).1,
   claim_C2.2.1 envT [voldVfat] [] ( "/sdcard".toList) none voldVfat (by decide) (by decide)
     (by decide) (by decide) (by decide),
   claim_C2.2.2 envT [ "/sdcard".toList] voldVfat false (by decide) (by decide) (by decide)
     (by decide)⟩

/-- Claim C7: for every path that resolves to a volume but is not equal to
that volume's configured mount point, `format_volume` fails with no side
effects at all: nothing is unmounted, wiped or formatted. -/
theorem claim_C7 (env : Env) (tab : List Volume) (s : List Str) (volume : Str)
    (directory : Option Str) (v : Volume)
    (hv : volume_for_path env tab volume = some v)
    (hne : ¬(v.mount_point = volume)) :
    format_volume env tab s volume directory = ⟨-1, [], s⟩ := by
  simp only [format_volume, hv]
  by_cases hr : v.fs_type = "ramdisk".toList
  · simp [hr]
  · simp [hr, hne]

/-- A cache volume used by several witnesses. -/
def cacheExt4 : Volume where
  mount_point := "/cache".toList
  blk_device := "/dev/block/by-name/cache".toList
  fs_type := "ext4".toList
  fs_options := []
  length := 0
  key_loc := none
  label := none
  logical_blk_size := 0
  erase_blk_size := 0
  voldmanaged := false

/-- Claim C7 witness: formatting by the sub-path `"/cache/recovery"` of the
configured `"/cache"` volume fails with no effects. -/
theorem claim_C7_w :
    format_volume envT [cacheExt4] [ "/cache".toList] ( "/cache/recovery".toList) none =
      ⟨-1, [], [ "/cache".toList]⟩ :=
  claim_C7 envT [cacheExt4] [ "/cache".toList] ( "/cache/recovery".toList) none cacheExt4
    (by decide) (by decide)

theorem take_len_append (l1 l2 : Str) : (l1 ++ l2).take l1.length = l1 := by
  induction l1 with
  | nil => simp
  | cons c t ih => simp [ih]

theorem drop_len_append (l1 l2 : Str) : (l1 ++ l2).drop l1.length = l2 := by
  induction l1 with
  | nil => simp
  | cons c t ih => simp [ih]

theorem takeWhile_append_stop (label rest : Str) (hl : ∀ c ∈ label, ¬(c = '/')) :
    (label ++ '/' :: rest).takeWhile (fun c => !(c == '/')) = label := by
  induction label with
  | nil => simp
  | cons c t ih =>
    have hc : ¬(c = '/') := hl c (by simp)
    have ht : ∀ c2 ∈ t, ¬(c2 = '/') := fun c2 hc2 => hl c2 (by simp [hc2])
    simp only [List.cons_append, List.takeWhile_cons]
    have : (c == '/') = false := by simp [hc]
    rw [this]
    simp [ih ht]

theorem keywipe_abs {env : Env} {v : Volume} {wtr : List Effect} {k : Str}
    (h : format_keywipe env v = some wtr) (hk : v.key_loc = some k)
    (hs : k.take 1 = "/".toList) : wtr = [Effect.wipeCall k] := by
  simp only [format_keywipe, hk] at h
  rw [if_pos hs] at h
  cases ho : env.openKeyOk k with
  | false => rw [ho] at h; simp at h
  | true => rw [ho] at h; simp at h; exact h.symm

/-- Claim C4: for the first table entry for a mount point, with configured
type in {ext4, f2fs, vfat}: a failing signature probe returns the entry
unchanged; a probe detecting a different type returns the first subsequent
same-mount-point entry whose configured type equals the detected one, or the
original entry when none exists; any other configured type is returned
as-is. -/
theorem claim_C4 (env : Env) (tab : List Volume) (path : Str) (r0 : Volume)
    (rest : List Volume)
    (hf : findWithRest tab (fun w => w.mount_point == path) = some (r0, rest)) :
    ((r0.fs_type = "ext4".toList ∨ r0.fs_type = "f2fs".toList ∨
        r0.fs_type = "vfat".toList) →
      (env.blkid r0.blk_device = none →
        get_entry_for_mount_point_detect_fs env tab path = some r0) ∧
      (∀ d, env.blkid r0.blk_device = some d → ¬(r0.fs_type = d) →
        (∀ w, rest.find? (fun w2 => w2.mount_point == path && w2.fs_type == d) = some w →
          get_entry_for_mount_point_detect_fs env tab path = some w) ∧
        (rest.find? (fun w2 => w2.mount_point == path && w2.fs_type == d) = none →
          get_entry_for_mount_point_detect_fs env tab path = some r0))) ∧
    (¬(r0.fs_type = "ext4".toList ∨ r0.fs_type = "f2fs".toList ∨
        r0.fs_type = "vfat".toList) →
      get_entry_for_mount_point_detect_fs env tab path = some r0) := by
  constructor
  · intro ht
    constructor
    · intro hb
      simp only [get_entry_for_mount_point_detect_fs, hf, if_pos ht, hb]
    · intro d hb hne
      constructor
      · intro w hw
        simp only [get_entry_for_mount_point_detect_fs, hf, if_pos ht, hb, if_neg hne, hw]
      · intro hw
        simp only [get_entry_for_mount_point_detect_fs, hf, if_pos ht, hb, if_neg hne, hw]
  · intro ht
    simp only [get_entry_for_mount_point_detect_fs, hf, if_neg ht]

/-- Environment whose signature probe detects f2fs on every device. -/
def envDetect : Env := { envT with blkid := fun _ => some ( "f2fs".toList) }

/-- A `/data` entry configured ext4. -/
def dataExt4 : Volume where
  mount_point := "/data".toList
  blk_device := "/dev/block/by-name/userdata".toList
  fs_type := "ext4".toList
  fs_options := []
  length := 0
  key_loc := none
  label := none
  logical_blk_size := 0
  erase_blk_size := 0
  voldmanaged := false

/-- A second `/data` entry configured f2fs. -/
def dataF2fs : Volume where
  mount_point := "/data".toList
  blk_device := "/dev/block/by-name/userdata".toList
  fs_type := "f2fs".toList
  fs_options := []
  length := 0
  key_loc := none
  label := none
  logical_blk_size := 0
  erase_blk_size := 0
  voldmanaged := false

/-- Claim C4 witness: an entry configured ext4 whose device probes as f2fs,
with a second same-mount-point f2fs entry, resolves to the second entry. -/
theorem claim_C4_w :
    get_entry_for_mount_point_detect_fs envDetect [dataExt4, dataF2fs] ( "/data".toList) =
      some dataF2fs :=
  (((claim_C4 envDetect [dataExt4, dataF2fs] ( "/data".toList) dataExt4 [dataF2fs]
      (by decide)).1 (by decide)).2 ( "f2fs".toList) rfl (by decide)).1 dataF2fs (by decide)

/-- Claim C5: the length computation of `format_volume`: a positive
configured length is used exactly, regardless of device size; a negative
length takes the device size minus `|length|` and fails when the device
cannot be opened or the result is not positive; a zero length with
`key_loc == "footer"` takes the device size minus the fixed footer
reservation; otherwise the length is left unconstrained at 0; and whenever
the computation fails, `format_volume` returns -1 without dispatching a
formatter. -/
theorem claim_C5 :
    (∀ env (v : Volume), 0 < v.length → format_volume_length env v = some v.length) ∧
    (∀ env (v : Volume), v.length < 0 → env.openBlkOk v.blk_device = false →
      format_volume_length env v = none) ∧
    (∀ env (v : Volume) n, v.length < 0 → env.openBlkOk v.blk_device = true →
      env.fileInfo v.blk_device = FileKind.blk n → n ≤ 9223372036854775807 →
      (-v.length).toNat < n →
      format_volume_length env v = some ((n : Int) + v.length)) ∧
    (∀ env (v : Volume), v.length < 0 → env.openBlkOk v.blk_device = true →
      get_file_size (env.fileInfo v.blk_device) (-v.length).toNat ≤ 0 →
      format_volume_length env v = none) ∧
    (∀ env (v : Volume) n, v.length = 0 → v.key_loc = some ( "footer".toList) →
      env.openBlkOk v.blk_device = true →
      env.fileInfo v.blk_device = FileKind.blk n → n ≤ 9223372036854775807 →
      CRYPT_FOOTER_OFFSET < n →
      format_volume_length env v = some ((n : Int) - (CRYPT_FOOTER_OFFSET : Int))) ∧
    (∀ env (v : Volume), v.length = 0 → ¬(v.key_loc = some ( "footer".toList)) →
      format_volume_length env v = some 0) ∧
    (∀ env tab s volume directory v, volume_for_path env tab volume = some v →
      format_volume_length env v = none →
      (format_volume env tab s volume directory).ret = -1 ∧
      ∀ args, ¬(Effect.execCall args ∈ (format_volume env tab s volume directory).trace)) := by
  refine ⟨?_, ?_, ?_, ?_, ?_, ?_, ?_⟩
  · intro env v h
    simp only [format_volume_length, if_pos h]
  · intro env v h ho
    simp only [format_volume_length, if_neg (by omega : ¬(0 < v.length)),
      if_pos (Or.inl h : v.length < 0 ∨ v.key_loc = some ( "footer".toList)), ho]
    simp
  · intro env v n h ho hfi hmax hres
    simp only [format_volume_length, if_neg (by omega : ¬(0 < v.length)),
      if_pos (Or.inl h : v.length < 0 ∨ v.key_loc = some ( "footer".toList)), ho,
      if_neg (by omega : ¬(v.length = 0)), hfi, get_file_size]
    rw [if_neg (by omega : ¬(n < (-v.length).toNat ∨ 9223372036854775807 < n))]
    have htn : (((-v.length).toNat : Int)) = -v.length :=
      Int.toNat_of_nonneg (by omega)
    have hres2 : -v.length < (n : Int) := by omega
    rw [htn]
    rw [if_neg (by omega : ¬((n : Int) - -v.length ≤ 0))]
    simp
  · intro env v h ho hle
    simp only [format_volume_length, if_neg (by omega : ¬(0 < v.length)),
      if_pos (Or.inl h : v.length < 0 ∨ v.key_loc = some ( "footer".toList)), ho,
      if_neg (by omega : ¬(v.length = 0))]
    rw [if_pos hle]
    simp
  · intro env v n h0 hk ho hfi hmax hres
    simp only [format_volume_length, if_neg (by omega : ¬(0 < v.length)),
      if_pos (Or.inr hk : v.length < 0 ∨ v.key_loc = some ( "footer".toList)), ho,
      if_pos h0, hfi, get_file_size]
    rw [if_neg (by simp only [CRYPT_FOOTER_OFFSET] at hres ⊢; omega :
      ¬(n < CRYPT_FOOTER_OFFSET ∨ 9223372036854775807 < n))]
    rw [if_neg (by simp only [CRYPT_FOOTER_OFFSET] at hres ⊢; omega :
      ¬((n : Int) - ((CRYPT_FOOTER_OFFSET : Nat) : Int) ≤ 0))]
    simp
  · intro env v h0 hk
    have : ¬(v.length < 0 ∨ v.key_loc = some ( "footer".toList)) := by
      intro hc; rcases hc with hc | hc
      · omega
      · exact hk hc
    simp only [format_volume_length, if_neg (by omega : ¬(0 < v.length)), if_neg this]
  · intro env tab s volume directory v hv hlen
    exact format_reject_no_exec hv (Or.inl hlen)

/-- A volume with configured length -1024 (backing device size 2048 in
`envT`). -/
def volNeg : Volume where
  mount_point := "/oem".toList
  blk_device := "/dev/block/by-name/oem".toList
  fs_type := "ext4".toList
  fs_options := []
  length := -1024
  key_loc := none
  label := none
  logical_blk_size := 0
  erase_blk_size := 0
  voldmanaged := false

/-- A volume with configured length 512. -/
def vol512 : Volume where
  mount_point := "/oem".toList
  blk_device := "/dev/block/by-name/oem".toList
  fs_type := "ext4".toList
  fs_options := []
  length := 512
  key_loc := none
  label := none
  logical_blk_size := 0
  erase_blk_size := 0
  voldmanaged := false

/-- Claim C5 witness: length -1024 on a 2048-byte block device computes
1024; explicit length 512 computes 512. -/
theorem claim_C5_w :
    format_volume_length envT volNeg = some 1024 ∧
    format_volume_length envT vol512 = some 512 :=
  ⟨claim_C5.2.2.1 envT volNeg 2048 (by decide) rfl rfl (by decide) (by decide),
   claim_C5.1 envT vol512 (by decide)⟩

/-- Claim C9: `ensure_path_unmounted` on a path under the `"/storage/"`
prefix resolves exactly the volume returned by looking up, by label, the
segment right after the prefix; every other path resolves through
`volume_for_path`. -/
theorem claim_C9 :
    (∀ env tab s label rest detach, (∀ c ∈ label, ¬(c = '/')) →
      ensure_path_unmounted env tab s ( "/storage/".toList ++ label ++ '/' :: rest) detach =
        ensure_volume_unmounted env s (volume_for_label tab label) detach) ∧
    (∀ env tab s path detach, ¬(path.take 9 = "/storage/".toList) →
      ensure_path_unmounted env tab s path detach =
        ensure_volume_unmounted env s (volume_for_path env tab path) detach) := by
  constructor
  · intro env tab s label rest detach hl
    have h9 : ( "/storage/".toList : Str).length = 9 := rfl
    have hc : (( "/storage/".toList ++ label ++ '/' :: rest : Str)).take 9 =
        "/storage/".toList := by
      have h := take_len_append ( "/storage/".toList) (label ++ '/' :: rest)
      rw [h9] at h
      exact h
    have hd : (( "/storage/".toList ++ label ++ '/' :: rest : Str)).drop 9 =
        label ++ '/' :: rest := by
      have h := drop_len_append ( "/storage/".toList) (label ++ '/' :: rest)
      rw [h9] at h
      exact h
    simp only [ensure_path_unmounted, hc, hd,
      takeWhile_append_stop label rest hl]
    simp
  · intro env tab s path detach h
    simp only [ensure_path_unmounted, if_neg h]

/-- A vold-managed sdcard volume carrying the label MYLABEL. -/
def sdLabel : Volume where
  mount_point := "/mnt/media_rw/MYLABEL".toList
  blk_device := "/dev/block/mmcblk1p1".toList
  fs_type := "vfat".toList
  fs_options := []
  length := 0
  key_loc := none
  label := some ( "MYLABEL".toList)
  logical_blk_size := 0
  erase_blk_size := 0
  voldmanaged := true

/-- Claim C9 witness: unmounting `"/storage/MYLABEL/subdir"` acts on exactly
the volume found by `volume_for_label` with label MYLABEL. -/
theorem claim_C9_w :
    ensure_path_unmounted envT [sdLabel] [] ( "/storage/".toList ++ "MYLABEL".toList ++
        '/' :: "subdir".toList) false =
      ensure_volume_unmounted envT [] (volume_for_label [sdLabel] ( "MYLABEL".toList))
        false :=
  claim_C9.1 envT [sdLabel] [] ( "MYLABEL".toList) ( "subdir".toList) false (by decide)

/-- Claim C10: `format_volume`'s failure is not atomic: for an ext4/f2fs
volume named by its exact mount point, once the unmount step has succeeded
and the key location (when path-like) has been opened, a rejection at the
length computation or at the vold-managed check still returns -1 — but the
volume has already been unmounted and the key location already wiped, with
no formatter dispatched. -/
theorem claim_C10 (env : Env) (tab : List Volume) (s : List Str) (volume : Str)
    (directory : Option Str) (v : Volume) (wtr : List Effect)
    (hv : volume_for_path env tab volume = some v)
    (hty : v.fs_type = "ext4".toList ∨ v.fs_type = "f2fs".toList)
    (hmp : v.mount_point = volume)
    (hum : (ensure_path_unmounted env tab s volume false).ret = 0)
    (hkw : format_keywipe env v = some wtr)
    (hvold : v.voldmanaged = true) :
    (format_volume env tab s volume directory).ret = -1 ∧
    (format_volume env tab s volume directory).trace =
      (ensure_path_unmounted env tab s volume false).trace ++ wtr ∧
    (∀ args, ¬(Effect.execCall args ∈ (format_volume env tab s volume directory).trace)) ∧
    (∀ k, v.key_loc = some k → k.take 1 = "/".toList →
      Effect.wipeCall k ∈ (format_volume env tab s volume directory).trace) := by
  have hram : ¬(v.fs_type = "ramdisk".toList) := by
    rcases hty with h | h <;> rw [h] <;> decide
  have hfv : format_volume env tab s volume directory =
      ⟨-1, (ensure_path_unmounted env tab s volume false).trace ++ wtr,
        (ensure_path_unmounted env tab s volume false).mounted⟩ := by
    simp only [format_volume, hv, if_neg hram,
      if_neg (not_not_intro hmp),
      if_neg (not_not_intro hum),
      if_neg (not_not_intro hty),
      hkw]
    cases hlen : format_volume_length env v with
    | none => rfl
    | some len =>
      simp only []
      rw [if_pos hvold]
  rw [hfv]
  refine ⟨rfl, rfl, ?_, ?_⟩
  · intro args hmem
    rcases List.mem_append.mp hmem with h | h
    · exact epu_exec_notin env tab s volume false args h
    · rcases keywipe_shape hkw with he | ⟨k2, he⟩ <;> rw [he] at h <;> simp at h
  · intro k hk hs
    rw [keywipe_abs hkw hk hs]
    simp

/-- A vold-managed `/data` entry with a path-like key location. -/
def dataKey : Volume where
  mount_point := "/data".toList
  blk_device := "/dev/block/by-name/userdata".toList
  fs_type := "ext4".toList
  fs_options := []
  length := 0
  key_loc := some ( "/dev/block/by-name/crypt".toList)
  label := none
  logical_blk_size := 0
  erase_blk_size := 0
  voldmanaged := true

/-- Claim C10 witness: formatting the vold-managed `/data` entry with a
path-like key location fails, yet its key location has already been
wiped. -/
theorem claim_C10_w :
    (format_volume envT [dataKey] [] ( "/data".toList) none).ret = -1 ∧
    Effect.wipeCall ( "/dev/block/by-name/crypt".toList) ∈
      (format_volume envT [dataKey] [] ( "/data".toList) none).trace := by
  have h := claim_C10 envT [dataKey] [] ( "/data".toList) none dataKey
    [Effect.wipeCall ( "/dev/block/by-name/crypt".toList)]
    (by decide) (Or.inl (by decide)) (by decide) (by decide) (by decide) (by decide)
  exact ⟨h.1, h.2.2.2 ( "/dev/block/by-name/crypt".toList) (by decide) (by decide)⟩

/-- Claim C6: mount and unmount are idempotent against the freshly scanned
snapshot: a non-vold-managed, non-ramdisk resolvable volume whose target
mount point is already in the scan mounts as a pure no-op; a non-ramdisk
volume whose mount point is absent from the scan unmounts as a pure no-op;
consequently a successful mount (of a non-vold-managed volume) or a
successful unmount, repeated immediately on the resulting state, succeeds
again. -/
theorem claim_C6 :
    (∀ env tab s path mpo v, volume_for_path env tab path = some v →
      ¬(v.fs_type = "ramdisk".toList) → env.scanOk = true →
      v.voldmanaged = false → (mpo.getD v.mount_point) ∈ s →
      ensure_path_mounted_at env tab s path mpo = ⟨0, [], s⟩) ∧
    (∀ env s v detach, ¬((v : Volume).fs_type = "ramdisk".toList) → env.scanOk = true →
      ¬(v.mount_point ∈ s) →
      ensure_volume_unmounted env s (some v) detach = ⟨0, [], s⟩) ∧
    (∀ env tab s path mpo v, volume_for_path env tab path = some v →
      v.voldmanaged = false →
      (ensure_path_mounted_at env tab s path mpo).ret = 0 →
      (ensure_path_mounted_at env tab (ensure_path_mounted_at env tab s path mpo).mounted
        path mpo).ret = 0) ∧
    (∀ env s v? detach,
      (ensure_volume_unmounted env s v? detach).ret = 0 →
      (ensure_volume_unmounted env (ensure_volume_unmounted env s v? detach).mounted
        v? detach).ret = 0) := by
  refine ⟨?_, ?_, ?_, ?_⟩
  · intro env tab s path mpo v hv hram hscan hvold hmem
    simp only [ensure_path_mounted_at, hv, if_neg hram, hscan]
    rw [if_neg (by simp : ¬((true : Bool) = false))]
    rw [if_pos ⟨hvold, hmem⟩]
  · intro env s v detach hram hscan hmem
    simp only [ensure_volume_unmounted, if_neg hram, hscan]
    rw [if_neg (by simp : ¬((true : Bool) = false))]
    rw [if_neg hmem]
  · intro env tab s path mpo v hv hvold h1
    by_cases hram : v.fs_type = "ramdisk".toList
    · have hfst : ensure_path_mounted_at env tab s path mpo = ⟨0, [], s⟩ := by
        simp only [ensure_path_mounted_at, hv, if_pos hram]
      rw [hfst]
      simp only [ensure_path_mounted_at, hv, if_pos hram]
    · cases hscan : env.scanOk with
      | false =>
        have hfst : ensure_path_mounted_at env tab s path mpo = ⟨-1, [], s⟩ := by
          simp only [ensure_path_mounted_at, hv, if_neg hram, hscan]
          rw [if_pos trivial]
        rw [hfst] at h1
        simp at h1
      | true =>
        by_cases hmem : (mpo.getD v.mount_point) ∈ s
        · have hfst : ensure_path_mounted_at env tab s path mpo = ⟨0, [], s⟩ := by
            simp only [ensure_path_mounted_at, hv, if_neg hram, hscan]
            rw [if_neg (by simp : ¬((true : Bool) = false)), if_pos ⟨hvold, hmem⟩]
          rw [hfst]
          simp only []
          rw [hfst]
        · by_cases hty : v.fs_type = "ext4".toList ∨ v.fs_type = "squashfs".toList ∨
              v.fs_type = "vfat".toList ∨ v.fs_type = "f2fs".toList
          · cases hmk : env.mountOk s v.blk_device (mpo.getD v.mount_point) with
            | false =>
              have hfst : ensure_path_mounted_at env tab s path mpo =
                  ⟨-1, [Effect.mkdirs (mpo.getD v.mount_point),
                    Effect.mountCall v.blk_device (mpo.getD v.mount_point)], s⟩ := by
                simp only [ensure_path_mounted_at, hv, if_neg hram, hscan]
                rw [if_neg (by simp : ¬((true : Bool) = false)),
                  if_neg (by intro hc; exact hmem hc.2), if_pos hty, hmk,
                  if_neg (by simp : ¬((false : Bool) = true))]
              rw [hfst] at h1
              simp at h1
            | true =>
              have hfst : ensure_path_mounted_at env tab s path mpo =
                  ⟨0, [Effect.mkdirs (mpo.getD v.mount_point),
                    Effect.mountCall v.blk_device (mpo.getD v.mount_point)],
                    mpo.getD v.mount_point :: s⟩ := by
                simp only [ensure_path_mounted_at, hv, if_neg hram, hscan]
                rw [if_neg (by simp : ¬((true : Bool) = false)),
                  if_neg (by intro hc; exact hmem hc.2), if_pos hty, hmk, if_pos rfl]
              rw [hfst]
              simp only []
              have hsnd : ensure_path_mounted_at env tab (mpo.getD v.mount_point :: s)
                  path mpo = ⟨0, [], mpo.getD v.mount_point :: s⟩ := by
                simp only [ensure_path_mounted_at, hv, if_neg hram, hscan]
                rw [if_neg (by simp : ¬((true : Bool) = false)),
                  if_pos ⟨hvold, by simp⟩]
              rw [hsnd]
          · have hfst : ensure_path_mounted_at env tab s path mpo =
                ⟨-1, [Effect.mkdirs (mpo.getD v.mount_point)], s⟩ := by
              simp only [ensure_path_mounted_at, hv, if_neg hram, hscan]
              rw [if_neg (by simp : ¬((true : Bool) = false)),
                if_neg (by intro hc; exact hmem hc.2), if_neg hty]
            rw [hfst] at h1
            simp at h1
  · intro env s v? detach h1
    cases v? with
    | none => simp [ensure_volume_unmounted] at h1 ⊢
    | some v =>
      by_cases hram : v.fs_type = "ramdisk".toList
      · simp only [ensure_volume_unmounted, if_pos hram] at h1
        simp at h1
      cases hscan : env.scanOk with
      | false =>
        have hfst : ensure_volume_unmounted env s (some v) detach = ⟨-1, [], s⟩ := by
          simp only [ensure_volume_unmounted, if_neg hram, hscan]
          rw [if_pos trivial]
        rw [hfst] at h1
        simp at h1
      | true =>
        by_cases hmem : v.mount_point ∈ s
        · cases detach with
          | true =>
            cases hu : env.umountDetachOk s v.mount_point with
            | false =>
              have hfst : ensure_volume_unmounted env s (some v) true =
                  ⟨-1, [Effect.umountDetachCall v.mount_point], s⟩ := by
                simp only [ensure_volume_unmounted, if_neg hram, hscan]
                rw [if_neg (by simp : ¬((true : Bool) = false)), if_pos hmem,
                  if_pos trivial, hu, if_neg (by simp : ¬((false : Bool) = true))]
              rw [hfst] at h1
              simp at h1
            | true =>
              have hfst : ensure_volume_unmounted env s (some v) true =
                  ⟨0, [Effect.umountDetachCall v.mount_point],
                    s.filter (fun m => m ≠ v.mount_point)⟩ := by
                simp only [ensure_volume_unmounted, if_neg hram, hscan]
                rw [if_neg (by simp : ¬((true : Bool) = false)), if_pos hmem,
                  if_pos trivial, hu, if_pos rfl]
              rw [hfst]
              simp only []
              have hsnd : ensure_volume_unmounted env
                  (s.filter (fun m => m ≠ v.mount_point)) (some v) true =
                  ⟨0, [], s.filter (fun m => m ≠ v.mount_point)⟩ := by
                simp only [ensure_volume_unmounted, if_neg hram, hscan]
                rw [if_neg (by simp : ¬((true : Bool) = false)),
                  if_neg (by simp : ¬(v.mount_point ∈
                    s.filter (fun m => m ≠ v.mount_point)))]
              rw [hsnd]
          | false =>
            cases hu : env.umountOk s v.mount_point with
            | false =>
              have hfst : ensure_volume_unmounted env s (some v) false =
                  ⟨-1, [Effect.umountCall v.mount_point], s⟩ := by
                simp only [ensure_volume_unmounted, if_neg hram, hscan]
                rw [if_neg (by simp : ¬((true : Bool) = false)), if_pos hmem,
                  if_neg (by simp : ¬((false : Bool) = true)), hu,
                  if_neg (by simp : ¬((false : Bool) = true))]
              rw [hfst] at h1
              simp at h1
            | true =>
              have hfst : ensure_volume_unmounted env s (some v) false =
                  ⟨0, [Effect.umountCall v.mount_point],
                    s.filter (fun m => m ≠ v.mount_point)⟩ := by
                simp only [ensure_volume_unmounted, if_neg hram, hscan]
                rw [if_neg (by simp : ¬((true : Bool) = false)), if_pos hmem,
                  if_neg (by simp : ¬((false : Bool) = true)), hu, if_pos rfl]
              rw [hfst]
              simp only []
              have hsnd : ensure_volume_unmounted env
                  (s.filter (fun m => m ≠ v.mount_point)) (some v) false =
                  ⟨0, [], s.filter (fun m => m ≠ v.mount_point)⟩ := by
                simp only [ensure_volume_unmounted, if_neg hram, hscan]
                rw [if_neg (by simp : ¬((true : Bool) = false)),
                  if_neg (by simp : ¬(v.mount_point ∈
                    s.filter (fun m => m ≠ v.mount_point)))]
              rw [hsnd]
        · have hfst : ensure_volume_unmounted env s (some v) detach = ⟨0, [], s⟩ := by
            simp only [ensure_volume_unmounted, if_neg hram, hscan]
            rw [if_neg (by simp : ¬((true : Bool) = false)), if_neg hmem]
          rw [hfst]
          simp only []
          rw [hfst]

/-- Claim C6 witness: a mounted non-vold cache volume remounts as a no-op,
and unmounting it twice in succession succeeds both times. -/
theorem claim_C6_w :
    ensure_path_mounted_at envT [cacheExt4] [ "/cache".toList] ( "/cache".toList) none =
      ⟨0, [], [ "/cache".toList]⟩ ∧
    (ensure_volume_unmounted envT
      ((ensure_volume_unmounted envT [ "/cache".toList] (some cacheExt4) false).mounted)
      (some cacheExt4) false).ret = 0 :=
  ⟨claim_C6.1 envT [cacheExt4] [ "/cache".toList] ( "/cache".toList) none cacheExt4
      (by decide) (by decide) (by decide) (by decide) (by decide),
   claim_C6.2.2.2 envT [ "/cache".toList] (some cacheExt4) false (by decide)⟩

/-- Every effect of a mount operation is a directory creation or a mount
call. -/
theorem epma_trace_shape {env : Env} {tab : List Volume} {s : List Str} {path : Str}
    {mpo : Option Str} {e : Effect}
    (h : e ∈ (ensure_path_mounted_at env tab s path mpo).trace) :
    (∃ mp2, e = Effect.mkdirs mp2) ∨ (∃ d mp2, e = Effect.mountCall d mp2) := by
  cases hv : volume_for_path env tab path with
  | none => simp [ensure_path_mounted_at, hv] at h
  | some v =>
    simp only [ensure_path_mounted_at, hv] at h
    split_ifs at h <;> simp at h
    · rcases h with h | h
      · exact Or.inl ⟨_, h⟩
      · exact Or.inr ⟨_, _, h⟩
    · rcases h with h | h
      · exact Or.inl ⟨_, h⟩
      · exact Or.inr ⟨_, _, h⟩
    · exact Or.inl ⟨_, h⟩

/-- A mount call issued by a mount operation targets the resolved volume's
device and the effective mount point. -/
theorem epma_mount_target {env : Env} {tab : List Volume} {s : List Str} {path : Str}
    {mpo : Option Str} {d mp : Str}
    (h : Effect.mountCall d mp ∈ (ensure_path_mounted_at env tab s path mpo).trace) :
    ∃ v, volume_for_path env tab path = some v ∧ d = v.blk_device ∧
      mp = mpo.getD v.mount_point := by
  cases hv : volume_for_path env tab path with
  | none => simp [ensure_path_mounted_at, hv] at h
  | some v =>
    simp only [ensure_path_mounted_at, hv] at h
    refine ⟨v, rfl, ?_⟩
    split_ifs at h <;> simp at h <;> exact ⟨h.1, h.2⟩

/-- Every effect of an unmount operation on a known volume is the matching
unmount call on that volume's mount point. -/
theorem evu_trace_shape {env : Env} {s : List Str} {v : Volume} {detach : Bool}
    {e : Effect} (h : e ∈ (ensure_volume_unmounted env s (some v) detach).trace) :
    (detach = true ∧ e = Effect.umountDetachCall v.mount_point) ∨
    (detach = false ∧ e = Effect.umountCall v.mount_point) := by
  simp only [ensure_volume_unmounted] at h
  split_ifs at h with h1 h2 h3 h4 h5 <;> simp at h
  · exact Or.inl ⟨h4, h⟩
  · exact Or.inl ⟨h4, h⟩
  · cases hd : detach with
    | true => exact absurd hd h4
    | false => exact Or.inr ⟨rfl, h⟩
  · cases hd : detach with
    | true => exact absurd hd h4
    | false => exact Or.inr ⟨rfl, h⟩

/-- The per-entry trace discipline of the `setup_install_mounts` loop. -/
theorem setup_go_trace (env : Env) (tab : List Volume) :
    ∀ entries s, (∀ v ∈ entries, v ∈ tab) →
      (∀ d mp, Effect.mountCall d mp ∈ (setup_install_mounts_go env tab entries s).trace →
        mp = "/tmp".toList ∨ mp = "/cache".toList) ∧
      (∀ mp, Effect.umountDetachCall mp ∈
          (setup_install_mounts_go env tab entries s).trace →
        mp = "/data".toList) ∧
      (∀ mp, Effect.umountCall mp ∈ (setup_install_mounts_go env tab entries s).trace →
        ¬(mp = "/".toList) ∧ ¬(mp = "/tmp".toList) ∧ ¬(mp = "/cache".toList) ∧
        ¬(mp = "/data".toList)) := by
  intro entries
  induction entries with
  | nil =>
    intro s _
    refine ⟨?_, ?_, ?_⟩
    · intro d mp hmem
      simp [setup_install_mounts_go] at hmem
    · intro mp hmem
      simp [setup_install_mounts_go] at hmem
    · intro mp hmem
      simp [setup_install_mounts_go] at hmem
  | cons v rest ih =>
    intro s hsub
    have hv : v ∈ tab := hsub v (by simp)
    have hrest : ∀ w ∈ rest, w ∈ tab := fun w hw => hsub w (by simp [hw])
    simp only [setup_install_mounts_go]
    by_cases h1 : v.mount_point = "/".toList
    · rw [if_pos h1]
      exact ih s hrest
    · rw [if_neg h1]
      by_cases h2 : v.mount_point = "/tmp".toList ∨ v.mount_point = "/cache".toList
      · rw [if_pos h2]
        have hmnt : ∀ d mp,
            Effect.mountCall d mp ∈ (ensure_path_mounted env tab s v.mount_point).trace →
            mp = "/tmp".toList ∨ mp = "/cache".toList := by
          intro d mp hmem
          obtain ⟨v2, hv2, _, hmp⟩ := epma_mount_target hmem
          have hne : ¬(v.mount_point = []) := by
            rcases h2 with h | h <;> rw [h] <;> decide
          obtain ⟨r2, hr2, hrmp⟩ := volume_for_path_self env hv hne
          rw [hv2] at hr2
          have : v2 = r2 := by injection hr2
          rw [this] at hmp
          simp only [Option.getD] at hmp
          rw [hmp, hrmp]
          exact h2
        have hsh : ∀ e, e ∈ (ensure_path_mounted env tab s v.mount_point).trace →
            (∃ mp2, e = Effect.mkdirs mp2) ∨ (∃ d mp2, e = Effect.mountCall d mp2) :=
          fun e he => epma_trace_shape he
        by_cases h3 : (ensure_path_mounted env tab s v.mount_point).ret = 0
        · rw [if_pos h3]
          obtain ⟨ih1, ih2, ih3⟩ :=
            ih (ensure_path_mounted env tab s v.mount_point).mounted hrest
          refine ⟨?_, ?_, ?_⟩
          · intro d mp hmem
            simp only [] at hmem
            rcases List.mem_append.mp hmem with hm | hm
            · exact hmnt d mp hm
            · exact ih1 d mp hm
          · intro mp hmem
            simp only [] at hmem
            rcases List.mem_append.mp hmem with hm | hm
            · rcases hsh _ hm with ⟨mp2, he⟩ | ⟨d, mp2, he⟩ <;> simp at he
            · exact ih2 mp hm
          · intro mp hmem
            simp only [] at hmem
            rcases List.mem_append.mp hmem with hm | hm
            · rcases hsh _ hm with ⟨mp2, he⟩ | ⟨d, mp2, he⟩ <;> simp at he
            · exact ih3 mp hm
        · rw [if_neg h3]
          refine ⟨?_, ?_, ?_⟩
          · intro d mp hmem
            exact hmnt d mp hmem
          · intro mp hmem
            rcases hsh _ hmem with ⟨mp2, he⟩ | ⟨d, mp2, he⟩ <;> simp at he
          · intro mp hmem
            rcases hsh _ hmem with ⟨mp2, he⟩ | ⟨d, mp2, he⟩ <;> simp at he
      · rw [if_neg h2]
        have hntmp : ¬(v.mount_point = "/tmp".toList) := fun hc => h2 (Or.inl hc)
        have hncache : ¬(v.mount_point = "/cache".toList) := fun hc => h2 (Or.inr hc)
        have humnt : ∀ e, e ∈ (ensure_volume_unmounted env s (some v)
            (v.mount_point == "/data".toList)).trace →
            ((v.mount_point == "/data".toList) = true ∧
              e = Effect.umountDetachCall v.mount_point) ∨
            ((v.mount_point == "/data".toList) = false ∧
              e = Effect.umountCall v.mount_point) :=
          fun e he => evu_trace_shape he
        by_cases h3 : (ensure_volume_unmounted env s (some v)
            (v.mount_point == "/data".toList)).ret = 0
        · rw [if_pos h3]
          obtain ⟨ih1, ih2, ih3⟩ := ih (ensure_volume_unmounted env s (some v)
            (v.mount_point == "/data".toList)).mounted hrest
          refine ⟨?_, ?_, ?_⟩
          · intro d mp hmem
            simp only [] at hmem
            rcases List.mem_append.mp hmem with hm | hm
            · rcases humnt _ hm with ⟨_, he⟩ | ⟨_, he⟩ <;> simp at he
            · exact ih1 d mp hm
          · intro mp hmem
            simp only [] at hmem
            rcases List.mem_append.mp hmem with hm | hm
            · rcases humnt _ hm with ⟨hd, he⟩ | ⟨_, he⟩
              · simp at he
                rw [he]
                have := beq_iff_eq.mp hd
                exact this
              · simp at he
            · exact ih2 mp hm
          · intro mp hmem
            simp only [] at hmem
            rcases List.mem_append.mp hmem with hm | hm
            · rcases humnt _ hm with ⟨_, he⟩ | ⟨hd, he⟩
              · simp at he
              · simp at he
                have hnd : ¬(v.mount_point = "/data".toList) := by
                  intro hc
                  rw [beq_eq_false_iff_ne] at hd
                  exact hd hc
                rw [he]
                exact ⟨h1, hntmp, hncache, hnd⟩
            · exact ih3 mp hm
        · rw [if_neg h3]
          refine ⟨?_, ?_, ?_⟩
          · intro d mp hmem
            rcases humnt _ hmem with ⟨_, he⟩ | ⟨_, he⟩ <;> simp at he
          · intro mp hmem
            rcases humnt _ hmem with ⟨hd, he⟩ | ⟨_, he⟩
            · simp at he
              rw [he]
              exact beq_iff_eq.mp hd
            · simp at he
          · intro mp hmem
            rcases humnt _ hmem with ⟨_, he⟩ | ⟨hd, he⟩
            · simp at he
            · simp at he
              have hnd : ¬(v.mount_point = "/data".toList) := by
                intro hc
                rw [beq_eq_false_iff_ne] at hd
                exact hd hc
              rw [he]
              exact ⟨h1, hntmp, hncache, hnd⟩

/-- Claim C8: `setup_install_mounts` fails immediately with no effects when
no volume table is loaded; otherwise it only ever issues mount calls whose
target is `"/tmp"` or `"/cache"`, detach unmounts exactly for `"/data"`, and
normal unmounts only for mount points other than `"/"`, `"/tmp"`,
`"/cache"` and `"/data"`; and it stops at the first failing mount or
unmount, returning -1 with only the effects performed so far. -/
theorem claim_C8 :
    (∀ env s, setup_install_mounts env none s = ⟨-1, [], s⟩) ∧
    (∀ env tab s,
      (∀ d mp, Effect.mountCall d mp ∈ (setup_install_mounts env (some tab) s).trace →
        mp = "/tmp".toList ∨ mp = "/cache".toList) ∧
      (∀ mp, Effect.umountDetachCall mp ∈
          (setup_install_mounts env (some tab) s).trace → mp = "/data".toList) ∧
      (∀ mp, Effect.umountCall mp ∈ (setup_install_mounts env (some tab) s).trace →
        ¬(mp = "/".toList) ∧ ¬(mp = "/tmp".toList) ∧ ¬(mp = "/cache".toList) ∧
        ¬(mp = "/data".toList))) ∧
    (∀ env tab s (v : Volume) rest,
      (v.mount_point = "/tmp".toList ∨ v.mount_point = "/cache".toList) →
      ¬((ensure_path_mounted env tab s v.mount_point).ret = 0) →
      setup_install_mounts_go env tab (v :: rest) s =
        ⟨-1, (ensure_path_mounted env tab s v.mount_point).trace,
          (ensure_path_mounted env tab s v.mount_point).mounted⟩) ∧
    (∀ env tab s (v : Volume) rest,
      ¬(v.mount_point = "/".toList) →
      ¬(v.mount_point = "/tmp".toList) → ¬(v.mount_point = "/cache".toList) →
      ¬((ensure_volume_unmounted env s (some v)
          (v.mount_point == "/data".toList)).ret = 0) →
      setup_install_mounts_go env tab (v :: rest) s =
        ⟨-1, (ensure_volume_unmounted env s (some v)
            (v.mount_point == "/data".toList)).trace,
          (ensure_volume_unmounted env s (some v)
            (v.mount_point == "/data".toList)).mounted⟩) := by
  refine ⟨?_, ?_, ?_, ?_⟩
  · intro env s
    rfl
  · intro env tab s
    exact setup_go_trace env tab tab s (fun v hv => hv)
  · intro env tab s v rest h2 h3
    have h1 : ¬(v.mount_point = "/".toList) := by
      rcases h2 with h | h <;> rw [h] <;> decide
    simp only [setup_install_mounts_go, if_neg h1, if_pos h2, if_neg h3]
  · intro env tab s v rest h1 htmp hcache h3
    have h2 : ¬(v.mount_point = "/tmp".toList ∨ v.mount_point = "/cache".toList) := by
      intro hc; rcases hc with hc | hc
      · exact htmp hc
      · exact hcache hc
    simp only [setup_install_mounts_go, if_neg h1, if_neg h2, if_neg h3]

/-- A plain `/system` volume. -/
def sysExt4 : Volume where
  mount_point := "/system".toList
  blk_device := "/dev/block/by-name/system".toList
  fs_type := "ext4".toList
  fs_options := []
  length := 0
  key_loc := none
  label := none
  logical_blk_size := 0
  erase_blk_size := 0
  voldmanaged := false

/-- Claim C8 witness: on a table with `/tmp`, `/cache`, `/system` and
`/data`, the mount call present in the produced trace targets `/cache`; and
with a failing mount-scan the loop stops at its first entry with -1. -/
theorem claim_C8_w :
    ( "/cache".toList = "/tmp".toList ∨ "/cache".toList = "/cache".toList) ∧
    setup_install_mounts_go { envT with scanOk := false } [sysExt4] [sysExt4] [] =
      ⟨-1, [], []⟩ :=
  ⟨(claim_C8.2.1 envT [tmpRamdisk, cacheExt4, sysExt4, dataExt4] []).1
      ( "/dev/block/by-name/cache".toList) ( "/cache".toList) (by decide),
   claim_C8.2.2.2 { envT with scanOk := false } [sysExt4] [] sysExt4 []
     (by decide) (by decide) (by decide) (by decide)⟩

theorem fls_lt : ∀ {l : Str} {i : Nat}, findLastSlash l = some i → i < l.length := by
  intro l
  induction l with
  | nil => intro i h; simp [findLastSlash] at h
  | cons c t ih =>
    intro i h
    simp only [findLastSlash] at h
    cases ht : findLastSlash t with
    | some j =>
      rw [ht] at h
      simp only [] at h
      simp at h
      have := ih ht
      simp only [List.length_cons]
      omega
    | none =>
      rw [ht] at h
      simp only [] at h
      by_cases hc : c = '/'
      · rw [if_pos hc] at h
        simp at h
        simp only [List.length_cons]
        omega
      · rw [if_neg hc] at h
        simp at h

theorem fls_append (l1 l2 : Str) :
    findLastSlash (l1 ++ l2) =
      match findLastSlash l2 with
      | some k => some (l1.length + k)
      | none => findLastSlash l1 := by
  induction l1 with
  | nil =>
    cases h : findLastSlash l2 with
    | some k => simp [h]
    | none => simp [h, findLastSlash]
  | cons c t ih =>
    cases h : findLastSlash l2 with
    | some k =>
      rw [h] at ih
      simp only [] at ih
      simp only []
      rw [List.cons_append]
      simp only [findLastSlash, ih]
      simp only [List.length_cons]
      congr 1
      omega
    | none =>
      rw [h] at ih
      simp only [] at ih
      simp only []
      rw [List.cons_append]
      simp only [findLastSlash, ih]

theorem fls_zero_two {s : Str} (h : findLastSlash s = some 0)
    (hs : ¬(s = "/".toList)) : 2 ≤ s.length := by
  cases s with
  | nil => simp [findLastSlash] at h
  | cons c t =>
    cases t with
    | nil =>
      simp only [findLastSlash] at h
      by_cases hc : c = '/'
      · rw [hc] at hs
        exact absurd rfl hs
      · rw [if_neg hc] at h
        simp at h
    | cons c2 t2 => simp

theorem take_len_add_append (l1 l2 : Str) (n : Nat) :
    (l1 ++ l2).take (l1.length + n) = l1 ++ l2.take n := by
  induction l1 with
  | nil => simp
  | cons c t ih =>
    have harith : (c :: t).length + n = (t.length + n) + 1 := by
      simp only [List.length_cons]
      omega
    rw [harith]
    simp only [List.cons_append, List.take_succ_cons, ih]

/-- The result of the trimming loop does not depend on the fuel, as long as
the fuel exceeds the string length. -/
theorem go_fuel_eq (env : Env) (tab : List Volume) :
    ∀ f g s, s.length < f → s.length < g →
      volume_for_path_go env tab f s = volume_for_path_go env tab g s := by
  intro f
  induction f with
  | zero =>
    intro g s hf _
    exact absurd hf (by omega)
  | succ f ih =>
    intro g s hf hg
    cases g with
    | zero => exact absurd hg (by omega)
    | succ g =>
      simp only [volume_for_path_go]
      cases hd : get_entry_for_mount_point_detect_fs env tab s with
      | some r => rfl
      | none =>
        simp only []
        by_cases hs : s = "/".toList
        · simp only [if_pos hs]
        · simp only [if_neg hs]
          cases hfls : findLastSlash s with
          | none => rfl
          | some k =>
            simp only []
            by_cases hk : k = 0
            · simp only [if_pos hk]
              have h2 : 2 ≤ s.length := fls_zero_two (hk ▸ hfls) hs
              have h1len : (( "/".toList : Str)).length = 1 := rfl
              apply ih
              · rw [h1len]
                omega
              · rw [h1len]
                omega
            · simp only [if_neg hk]
              have hkl : k < s.length := fls_lt hfls
              apply ih
              · simp only [List.length_take]
                omega
              · simp only [List.length_take]
                omega

/-- When no string matches any configured mount point, the trimming loop
always fails. -/
theorem go_all_none (env : Env) (tab : List Volume)
    (H : ∀ s2 : Str, get_entry_for_mount_point_detect_fs env tab s2 = none) :
    ∀ f s, volume_for_path_go env tab f s = none := by
  intro f
  induction f with
  | zero => intro s; rfl
  | succ f ih =>
    intro s
    simp only [volume_for_path_go, H s]
    by_cases hs : s = "/".toList
    · simp only [if_pos hs]
    · simp only [if_neg hs]
      cases hfls : findLastSlash s with
      | none => rfl
      | some k =>
        simp only []
        by_cases hk : k = 0
        · simp only [if_pos hk, ih]
        · simp only [if_neg hk, ih]

/-- One unfolding step of the trimming loop. -/
theorem go_succ (env : Env) (tab : List Volume) (f : Nat) (s : Str) :
    volume_for_path_go env tab (f + 1) s =
      (match get_entry_for_mount_point_detect_fs env tab s with
        | some r => some r
        | none =>
          if s = "/".toList then none
          else
            match findLastSlash s with
            | none => none
            | some k =>
              if k = 0 then volume_for_path_go env tab f ( "/".toList)
              else volume_for_path_go env tab f (s.take k)) := rfl

/-- Trimming a nested path below a mount point `mp` that has no configured
entry strictly below it reaches `mp` itself. -/
theorem go_nested (env : Env) (tab : List Volume) (mp : Str) (hmp : ¬(mp = []))
    (H : ∀ r : Str, get_entry_for_mount_point_detect_fs env tab (mp ++ '/' :: r) = none) :
    ∀ f rest, (mp ++ '/' :: rest).length < f →
      volume_for_path_go env tab f (mp ++ '/' :: rest) =
        volume_for_path_go env tab (mp.length + 1) mp := by
  intro f
  induction f with
  | zero =>
    intro rest h
    exact absurd h (by omega)
  | succ f ih =>
    intro rest hlen
    have hmppos : 0 < mp.length := List.length_pos.mpr hmp
    have hlen2 : (mp ++ '/' :: rest).length = mp.length + 1 + rest.length := by
      simp only [List.length_append, List.length_cons]
      omega
    rw [hlen2] at hlen
    rw [go_succ]
    rw [H rest]
    simp only []
    have hne : ¬(mp ++ '/' :: rest = "/".toList) := by
      intro hcon
      have hl := congrArg List.length hcon
      rw [hlen2] at hl
      simp at hl
      omega
    simp only [if_neg hne]
    cases hfr : findLastSlash rest with
    | some k =>
      have hf2 : findLastSlash (mp ++ '/' :: rest) = some (mp.length + (k + 1)) := by
        rw [fls_append]
        simp [findLastSlash, hfr]
      rw [hf2]
      simp only []
      rw [if_neg (by omega : ¬(mp.length + (k + 1) = 0))]
      have htake : (mp ++ '/' :: rest).take (mp.length + (k + 1)) =
          mp ++ '/' :: rest.take k := by
        rw [take_len_add_append]
        simp
      rw [htake]
      have hkl : k < rest.length := fls_lt hfr
      apply ih
      have : (mp ++ '/' :: rest.take k).length = mp.length + 1 + (rest.take k).length := by
        simp only [List.length_append, List.length_cons]
        omega
      rw [this]
      simp only [List.length_take]
      omega
    | none =>
      have hf2 : findLastSlash (mp ++ '/' :: rest) = some mp.length := by
        rw [fls_append]
        simp [findLastSlash, hfr]
      rw [hf2]
      simp only []
      rw [if_neg (by omega : ¬(mp.length = 0))]
      have htake : (mp ++ '/' :: rest).take mp.length = mp := by
        have h := take_len_add_append mp ('/' :: rest) 0
        simpa using h
      rw [htake]
      apply go_fuel_eq
      · omega
      · omega

/-- The sequence of candidate strings the trimming loop of
`volume_for_path` tries, in order: the path itself, then each ancestor
obtained by trimming at the last `'/'` (an index-0 slash yielding `"/"`),
stopping after `"/"` or when no slash remains. -/
def ancestors : Nat → Str → List Str
  | 0, _ => []
  | fuel + 1, s =>
    s :: (if s = "/".toList then []
      else
        match findLastSlash s with
        | none => []
        | some k =>
          if k = 0 then ancestors fuel ( "/".toList)
          else ancestors fuel (s.take k))

/-- One unfolding step of the candidate sequence. -/
theorem ancestors_succ (f : Nat) (s : Str) :
    ancestors (f + 1) s =
      s :: (if s = "/".toList then []
        else
          match findLastSlash s with
          | none => []
          | some k =>
            if k = 0 then ancestors f ( "/".toList)
            else ancestors f (s.take k)) := rfl

theorem ancestors_root (f : Nat) (h : 0 < f) :
    ancestors f ( "/".toList) = [ "/".toList ] := by
  cases f with
  | zero => exact absurd h (by omega)
  | succ f =>
    rw [ancestors_succ, if_pos rfl]

theorem fls_none_no_slash : ∀ {s : Str}, findLastSlash s = none →
    ∀ c ∈ s, ¬(c = '/') := by
  intro s
  induction s with
  | nil =>
    intro _ c hc
    simp at hc
  | cons a t ih =>
    intro h c hc
    simp only [findLastSlash] at h
    cases ht : findLastSlash t with
    | some j => rw [ht] at h; simp at h
    | none =>
      rw [ht] at h
      simp only [] at h
      by_cases ha : a = '/'
      · rw [if_pos ha] at h; simp at h
      · rcases List.mem_cons.mp hc with hcc | hcc
        · rw [hcc]; exact ha
        · exact ih ht c hcc

theorem findSome_none (f : Str → Option Volume) :
    ∀ l : List Str, (∀ x ∈ l, f x = none) → l.findSome? f = none := by
  intro l
  induction l with
  | nil => intro _; rfl
  | cons a t ih =>
    intro h
    simp only [List.findSome?]
    rw [h a (by simp)]
    exact ih (fun x hx => h x (by simp [hx]))

theorem findSome_append_none (f : Str → Option Volume) :
    ∀ l1 l2 : List Str, (∀ x ∈ l1, f x = none) →
      (l1 ++ l2).findSome? f = l2.findSome? f := by
  intro l1
  induction l1 with
  | nil => intro l2 _; rfl
  | cons a t ih =>
    intro l2 h
    simp only [List.cons_append, List.findSome?]
    rw [h a (by simp)]
    exact ih l2 (fun x hx => h x (by simp [hx]))

/-- The trimming loop returns the first successful lookup along the
candidate sequence. -/
theorem go_eq_findSome (env : Env) (tab : List Volume) :
    ∀ f s, volume_for_path_go env tab f s =
      (ancestors f s).findSome?
        (fun s2 => get_entry_for_mount_point_detect_fs env tab s2) := by
  intro f
  induction f with
  | zero => intro s; rfl
  | succ f ih =>
    intro s
    rw [go_succ, ancestors_succ]
    cases hd : get_entry_for_mount_point_detect_fs env tab s with
    | some r => simp [List.findSome?, hd]
    | none =>
      simp only [List.findSome?, hd]
      by_cases hs : s = "/".toList
      · simp [hs]
      · simp only [if_neg hs]
        cases hfls : findLastSlash s with
        | none => rfl
        | some k =>
          simp only []
          by_cases hk : k = 0
          · simp only [if_pos hk]
            exact ih ( "/".toList)
          · simp only [if_neg hk]
            exact ih (s.take k)

/-- `volume_for_path` on a non-empty path is the first successful lookup
along the candidate sequence. -/
theorem vfp_eq_findSome (env : Env) (tab : List Volume) (path : Str)
    (hne : ¬(path = [])) :
    volume_for_path env tab path =
      (ancestors (path.length + 1) path).findSome?
        (fun s2 => get_entry_for_mount_point_detect_fs env tab s2) := by
  simp only [volume_for_path, if_neg hne]
  exact go_eq_findSome env tab (path.length + 1) path

/-- For an absolute path, the candidate sequence ends with `"/"` and no
earlier candidate equals `"/"`. -/
theorem ancestors_abs :
    ∀ f (s : Str), s.length < f → s.take 1 = "/".toList → ¬(s = []) →
      ∃ pre, ancestors f s = pre ++ [ "/".toList ] ∧
        ∀ s2 ∈ pre, ¬(s2 = "/".toList) := by
  intro f
  induction f with
  | zero =>
    intro s h
    exact absurd h (by omega)
  | succ f ih =>
    intro s hlen habs hne
    rw [ancestors_succ]
    by_cases hs : s = "/".toList
    · refine ⟨[], ?_, by simp⟩
      rw [if_pos hs, hs]
      simp
    · rw [if_neg hs]
      have hhead : '/' ∈ s := by
        cases s with
        | nil => exact absurd rfl hne
        | cons c t =>
          have hc : c = '/' := by
            simp only [List.take_succ_cons, List.take_zero] at habs
            simpa using habs
          rw [hc]
          simp
      have hlen2 : 2 ≤ s.length := by
        cases s with
        | nil => exact absurd rfl hne
        | cons c t =>
          cases t with
          | nil =>
            have hc : c = '/' := by
              simp only [List.take_succ_cons, List.take_zero] at habs
              simpa using habs
            rw [hc] at hs
            exact absurd rfl hs
          | cons c2 t2 => simp
      cases hk : findLastSlash s with
      | none =>
        exact absurd (fls_none_no_slash hk '/' hhead) (by simp)
      | some k =>
        simp only []
        by_cases hk0 : k = 0
        · rw [if_pos hk0]
          rw [ancestors_root f (by omega)]
          refine ⟨[s], rfl, ?_⟩
          intro s2 hs2
          rcases List.mem_singleton.mp hs2 with h
          rw [h]
          exact hs
        · rw [if_neg hk0]
          have hkl : k < s.length := fls_lt hk
          have htk1 : (s.take k).take 1 = "/".toList := by
            rw [List.take_take]
            have hmin : min 1 k = 1 := by omega
            rw [hmin]
            exact habs
          have htkne : ¬(s.take k = []) := by
            intro hcon
            have hcl := congrArg List.length hcon
            simp only [List.length_take, List.length_nil] at hcl
            omega
          obtain ⟨pre, hpre, hprene⟩ := ih (s.take k)
            (by simp only [List.length_take]; omega) htk1 htkne
          rw [hpre]
          refine ⟨s :: pre, rfl, ?_⟩
          intro s2 hs2
          rcases List.mem_cons.mp hs2 with h | h
          · rw [h]; exact hs
          · exact hprene s2 h

/-- Claim C3: `volume_for_path` on the empty path yields no volume; on a
non-empty path it equals the first successful lookup along the candidate
sequence `ancestors` — the path itself first, then each ancestor obtained
by trimming the last `'/'`-separated component, ending at `"/"` for
absolute paths; if no candidate matches the result is "not found"; when
only `"/"` is configured among the candidates an absolute path resolves to
the `"/"` entry; a path that is itself configured resolves immediately; and
a nested path below a configured mount point with no entry strictly below
it resolves to the same volume as the mount point. -/
theorem claim_C3 :
    (∀ env tab, volume_for_path env tab [] = none) ∧
    (∀ env tab path, ¬(path = []) →
      volume_for_path env tab path =
        (ancestors (path.length + 1) path).findSome?
          (fun s => get_entry_for_mount_point_detect_fs env tab s)) ∧
    (∀ path : Str, ¬(path = []) →
      ∃ rest2, ancestors (path.length + 1) path = path :: rest2) ∧
    (∀ path : Str, ¬(path = []) → path.take 1 = "/".toList →
      ∃ pre, ancestors (path.length + 1) path = pre ++ [ "/".toList ] ∧
        ∀ s ∈ pre, ¬(s = "/".toList)) ∧
    (∀ env tab path, ¬(path = []) →
      (∀ s ∈ ancestors (path.length + 1) path,
        get_entry_for_mount_point_detect_fs env tab s = none) →
      volume_for_path env tab path = none) ∧
    (∀ env tab path, ¬(path = []) → path.take 1 = "/".toList →
      (∀ s ∈ ancestors (path.length + 1) path, ¬(s = "/".toList) →
        get_entry_for_mount_point_detect_fs env tab s = none) →
      volume_for_path env tab path =
        get_entry_for_mount_point_detect_fs env tab ( "/".toList)) ∧
    (∀ env tab path r, ¬(path = []) →
      get_entry_for_mount_point_detect_fs env tab path = some r →
      volume_for_path env tab path = some r) ∧
    (∀ env tab mp rest, ¬(mp = []) →
      (∀ r : Str, get_entry_for_mount_point_detect_fs env tab (mp ++ '/' :: r) = none) →
      volume_for_path env tab (mp ++ '/' :: rest) = volume_for_path env tab mp) := by
  refine ⟨?_, ?_, ?_, ?_, ?_, ?_, ?_, ?_⟩
  · intro env tab
    rfl
  · intro env tab path hne
    exact vfp_eq_findSome env tab path hne
  · intro path hne
    rw [ancestors_succ]
    exact ⟨_, rfl⟩
  · intro path hne habs
    exact ancestors_abs (path.length + 1) path (by omega) habs hne
  · intro env tab path hne H
    rw [vfp_eq_findSome env tab path hne]
    exact findSome_none _ _ H
  · intro env tab path hne habs H
    rw [vfp_eq_findSome env tab path hne]
    obtain ⟨pre, hpre, hprene⟩ := ancestors_abs (path.length + 1) path (by omega) habs hne
    rw [hpre]
    rw [findSome_append_none _ pre [ "/".toList ]
      (fun x hx => H x (by rw [hpre]; exact List.mem_append_left _ hx) (hprene x hx))]
    simp only [List.findSome?]
    cases hd : get_entry_for_mount_point_detect_fs env tab ( "/".toList) with
    | some r => rfl
    | none => rfl
  · intro env tab path r hne hdet
    simp only [volume_for_path, if_neg hne, volume_for_path_go, hdet]
  · intro env tab mp rest hmp H
    have hne : ¬((mp ++ '/' :: rest : Str) = []) := by simp
    simp only [volume_for_path, if_neg hne, if_neg hmp]
    exact go_nested env tab mp hmp H (((mp ++ '/' :: rest : Str)).length + 1) rest
      (by omega)

/-- Claim C3 witness: with only `/cache` configured, the nested path
`/cache/recovery/last_log` resolves to the same volume as `/cache`; with
only a `"/"` entry configured, `/cache/recovery` trims down to and resolves
to the `"/"` entry; and with only `/cache` configured, `/oem/subdir` tries
every ancestor and resolves to nothing. -/
theorem claim_C3_w :
    volume_for_path envT [cacheExt4]
        ( "/cache".toList ++ '/' :: "recovery/last_log".toList) =
      volume_for_path envT [cacheExt4] ( "/cache".toList) ∧
    volume_for_path envT [rootExt4] ( "/cache/recovery".toList) = some rootExt4 ∧
    volume_for_path envT [cacheExt4] ( "/oem/subdir".toList) = none :=
  ⟨claim_C3.2.2.2.2.2.2.2 envT [cacheExt4] ( "/cache".toList)
      ( "recovery/last_log".toList) (by decide)
      (by
        intro r
        have hne2 : ¬(( "/cache".toList : Str) = "/cache".toList ++ '/' :: r) := by
          intro hcon
          have hl := congrArg List.length hcon
          rw [List.length_append, List.length_cons] at hl
          have h6 : (( "/cache".toList : Str)).length = 6 := rfl
          rw [h6] at hl
          omega
        simp [get_entry_for_mount_point_detect_fs, findWithRest, cacheExt4, hne2]),
   (claim_C3.2.2.2.2.2.1 envT [rootExt4] ( "/cache/recovery".toList)
      (by decide) (by decide) (by decide)).trans (by decide),
   claim_C3.2.2.2.2.1 envT [cacheExt4] ( "/oem/subdir".toList) (by decide) (by decide)⟩

end Roots
